import Mathlib

/-!
Verification development for the Mettool web pipeline
(`src/mettool_web.py`): a tabular data-selection, cleaning and statistics
engine.  Tables are embedded column-wise, cells carry rationals, dates,
raw strings or a missing marker (pandas `NaN`/`NaT`), and float
arithmetic is idealised as exact rational/real arithmetic.
-/

namespace Mettool

/-- A calendar date as handled by the pipeline's date parsing.  Comparisons
go through `Date.key`, which is strictly monotone in lexicographic
(year, month, day) order for in-range months and days. -/
structure Date where
  year : Int
  month : Int
  day : Int
deriving DecidableEq, Repr

/-- Linearisation of a date used for all order comparisons. -/
def Date.key (dt : Date) : Int := dt.year * 10000 + dt.month * 100 + dt.day

/-- One cell of a table: a numeric value, a date, an uninterpreted string, or
the missing marker (`NaN` / `NaT`). -/
inductive Cell where
  | num (q : ℚ)
  | date (dt : Date)
  | str (s : String)
  | na
deriving DecidableEq, Repr

/-- A column-wise table: the row count of the index together with the named
columns in order. -/
structure Table where
  nrow : Nat
  cols : List (String × List Cell)
deriving DecidableEq, Repr

/-- Column names of a table, in table order. -/
def Table.names (t : Table) : List String := t.cols.map Prod.fst

/-- Look up a column by name (first match, as pandas label lookup on a table
with unique labels). -/
def Table.getCol (t : Table) (name : String) : Option (List Cell) :=
  (t.cols.find? fun p => p.1 == name).map Prod.snd

/-- Well-formedness: every column has exactly `nrow` entries. -/
def Table.WF (t : Table) : Prop := ∀ p ∈ t.cols, p.2.length = t.nrow

/-- The empty table (`pd.DataFrame()`). -/
def Table.empty : Table := { nrow := 0, cols := [] }

/-- Split a character list on a separator character. -/
def splitOn (sep : Char) : List Char → List (List Char)
  | [] => [[]]
  | ch :: rest =>
    let r := splitOn sep rest
    if ch == sep then [] :: r
    else
      match r with
      | [] => [[ch]]
      | g :: gs => (ch :: g) :: gs

/-- Read a non-empty all-digit character list as a natural number. -/
def digitsToNat : List Char → Option Nat
  | [] => none
  | l => l.foldl (fun acc ch =>
      match acc with
      | none => none
      | some n => if ch.isDigit then some (n * 10 + (ch.toNat - 48)) else none)
      (some 0)

/-- Split a string into exactly three numeric fields on the separator. -/
def splitNums (sep : Char) (s : String) : Option (Nat × Nat × Nat) :=
  match (splitOn sep s.toList).map digitsToNat with
  | [some a, some b, some c] => some (a, b, c)
  | _ => none

/-- Build a date, rejecting out-of-range months and days. -/
def mkValidDate (y m d : Nat) : Option Date :=
  if 1 ≤ m ∧ m ≤ 12 ∧ 1 ≤ d ∧ d ≤ 31 then some ⟨y, m, d⟩ else none

/-- Modelled from the external pandas library: scalar
`pd.to_datetime(s, dayfirst=...)` on the date-string shapes the pipeline
receives.  A dash-separated string `a-b-c` parses as year-month-day
regardless of `dayfirst`; a slash-separated string `a/b/c` parses day-first
or month-first according to `dayfirst`, with the dateutil fallback that
swaps day and month when the preferred reading is invalid. -/
def to_datetime (s : String) (dayfirst : Bool) : Option Date :=
  if s.toList.contains '-' then
    match splitNums '-' s with
    | some (a, b, c) => mkValidDate a b c
    | none => none
  else if s.toList.contains '/' then
    match splitNums '/' s with
    | some (a, b, c) =>
      if dayfirst then
        match mkValidDate c b a with
        | some dt => some dt
        | none => mkValidDate c a b
      else
        match mkValidDate c a b with
        | some dt => some dt
        | none => mkValidDate c b a
    | none => none
  else none

/-- Column-level `pd.to_datetime(column, errors='coerce')`: date cells pass
through, strings parse with the default (month-first / ISO) ordering,
anything else coerces to missing (`NaT`). -/
def coerceDate : Cell → Option Date
  | .date dt => some dt
  | .str s => to_datetime s false
  | _ => none

/-- Column-level `pd.to_numeric(column, errors='coerce')` on the cell model:
numeric cells pass through, everything else coerces to missing. -/
def coerceNum : Cell → Option ℚ
  | .num q => some q
  | _ => none

/-- Whether a cell is the missing marker. -/
def cellIsNa : Cell → Bool
  | .na => true
  | _ => false

/-- Whether a cell is the exact numeric zero (pandas `== 0`; missing values
compare false). -/
def cellIsZero : Cell → Bool
  | .num q => q == 0
  | _ => false

/-- Whether a column has numeric dtype in the loaded frame: every cell is a
number or missing (pandas stores missing numeric entries as float `NaN`). -/
def isNumericCol (c : List Cell) : Bool :=
  c.all fun x =>
    match x with
    | .num _ => true
    | .na => true
    | _ => false

/-- Junk score of a column from `_remove_junk_columns`: fraction of missing
values plus, for numeric-dtype columns only, fraction of exact zeros. -/
def junkScore (nrow : Nat) (c : List Cell) : ℚ :=
  (c.countP cellIsNa : ℚ) / (nrow : ℚ) +
    (if isNumericCol c then (c.countP cellIsZero : ℚ) / (nrow : ℚ) else 0)

/-- The keep decision `nan_frac + zero_frac < threshold`.  On a zero-row
table the pandas fractions are `NaN` and the comparison is false, so nothing
is kept. -/
def junkKeep (threshold : ℚ) (nrow : Nat) (c : List Cell) : Bool :=
  if nrow = 0 then false else decide (junkScore nrow c < threshold)

/-- `Mettool._remove_junk_columns`: drop the columns that fail the keep
decision, always keeping a column literally named `Date` when present. -/
def remove_junk_columns (threshold : ℚ) (t : Table) : Table :=
  { nrow := t.nrow
    cols := t.cols.filter fun p => p.1 == "Date" || junkKeep threshold t.nrow p.2 }

/-- The mutable state of a `Mettool` instance: the configured date-column
name, the raw dataset kept for re-selection, the current working table and
the most recent requested column list. -/
structure MState where
  date_column : String
  original_data : Table
  data : Table
  column_list : List String
deriving DecidableEq, Repr

/-- Exceptions escaping `Mettool.select_data`: an unparseable date literal,
`ValueError('Start > End')`, or a `KeyError` for a missing column. -/
inductive SelErr where
  | parseErr
  | rangeErr
  | missingCol
deriving DecidableEq, Repr

/-- Keep the cells whose mask entry is true, in order (`df.loc[mask, ...]`). -/
def applyMask (mask : List Bool) (c : List Cell) : List Cell :=
  ((c.zip mask).filter fun p => p.2).map Prod.fst

/-- One entry of the boolean row mask
`(df[dc] >= start_dt) & (df[dc] <= end_dt)`: a missing (`NaT`) date never
satisfies either comparison. -/
def maskEntry (sdt edt : Date) (od : Option Date) : Bool :=
  match od with
  | some dt => decide (sdt.key ≤ dt.key) && decide (dt.key ≤ edt.key)
  | none => false

/-- The row mask of `select_data` over the raw date-column cells. -/
def selectMask (sdt edt : Date) (c : List Cell) : List Bool :=
  c.map fun x => maskEntry sdt edt (coerceDate x)

/-- Rewrite the date column in place with its coerced values
(`df[dc] = pd.to_datetime(df[dc], errors='coerce')`). -/
def coerceDateCol (t : Table) (dc : String) : Table :=
  { t with
    cols := t.cols.map fun p =>
      if p.1 == dc then
        (p.1, p.2.map fun x =>
          match coerceDate x with
          | some dt => Cell.date dt
          | none => Cell.na)
      else p }

/-- Project onto the requested columns in order; `none` models the `KeyError`
pandas raises when a requested label is absent. -/
def projectCols (t : Table) : List String → Option (List (String × List Cell))
  | [] => some []
  | n :: rest =>
    match t.getCol n, projectCols t rest with
    | some c, some ps => some ((n, c) :: ps)
    | _, _ => none

/-- The body of `Mettool.select_data` after both date literals have been
parsed: range check, date-column check, coercion of the date column, row
mask and column projection. -/
def select_with_dates (st : MState) (sdt edt : Date) (cols : List String) :
    Except SelErr MState :=
  if edt.key < sdt.key then .error .rangeErr
  else if st.date_column ∈ st.original_data.names then
    let df := coerceDateCol st.original_data st.date_column
    let mask := selectMask sdt edt ((st.original_data.getCol st.date_column).getD [])
    let cols2 := if st.date_column ∈ cols then cols else cols ++ [st.date_column]
    match projectCols df cols2 with
    | none => .error .missingCol
    | some plist =>
      .ok { st with
            data := { nrow := (mask.filter id).length
                      cols := plist.map fun p => (p.1, applyMask mask p.2) }
            column_list := cols2 }
  else .error .missingCol

/-- `Mettool.select_data`: the `dayfirst` flag is derived from the start
literal alone (`dayfirst = '/' in start`) and used for both parses. -/
def select_data (st : MState) (start stop : String) (cols : List String) :
    Except SelErr MState :=
  let dayfirst := start.toList.contains '/'
  match to_datetime start dayfirst with
  | none => .error .parseErr
  | some sdt =>
    match to_datetime stop dayfirst with
    | none => .error .parseErr
    | some edt => select_with_dates st sdt edt cols

/-- The selection the spec's date-parsing sentence describes: each literal is
parsed with `dayfirst` decided by that literal's own content.  Kept only to
compare the spec's reading against `select_data`. -/
def select_data_spec (st : MState) (start stop : String) (cols : List String) :
    Except SelErr MState :=
  match to_datetime start (start.toList.contains '/') with
  | none => .error .parseErr
  | some sdt =>
    match to_datetime stop (stop.toList.contains '/') with
    | none => .error .parseErr
    | some edt => select_with_dates st sdt edt cols

/-- Running `select_data` with Python's exception semantics: when an
exception is raised the instance state is left untouched, since
`self.data` and `self.column_list` are only assigned after every check has
passed. -/
def select_data_run (st : MState) (start stop : String) (cols : List String) :
    MState × Option SelErr :=
  match select_data st start stop cols with
  | .ok st2 => (st2, none)
  | .error e => (st, some e)

/-- The non-missing values of an optional-rational column, in order
(`Series.dropna()`). -/
def subVals (xs : List (Option ℚ)) : List ℚ := xs.filterMap id

/-- Mean of a rational list (callers guard against the empty list). -/
def listMean (l : List ℚ) : ℚ := l.sum / (l.length : ℚ)

/-- Pandas `Series.mean()`: the mean of the non-missing values, missing when
there are none. -/
def seriesMean (xs : List (Option ℚ)) : Option ℚ :=
  let sub := subVals xs
  if sub.isEmpty then none else some (listMean sub)

/-- Zero replacement (`self.data.loc[self.data[c] == 0, c] = np.nan`). -/
def replaceZeroes (xs : List (Option ℚ)) : List (Option ℚ) :=
  xs.map fun o => if o = some 0 then none else o

/-- Decides `|dev| / sqrt v > t` exactly over the rationals, following the
float semantics of `np.abs(stats.zscore(...)) > threshold`: when the
variance `v` is zero every z-score is `0/0 = NaN` and the comparison is
false. -/
def zExceeds (dev v t : ℚ) : Bool :=
  if v = 0 then false
  else if t < 0 then true
  else decide (t ^ 2 * v < dev ^ 2)

/-- The `zscore` branch of `filter_data`: z-scores are computed by
`stats.zscore` over the non-missing subset with its default `ddof = 0`
(population variance of that subset); entries with `|z| > threshold` become
missing and missing entries are never scored. -/
def zscoreClean (t : ℚ) (xs : List (Option ℚ)) : List (Option ℚ) :=
  let sub := subVals xs
  if sub.isEmpty then xs
  else
    let m := listMean sub
    let v := listMean (sub.map fun x => (x - m) ^ 2)
    xs.map fun o =>
      match o with
      | some x => if zExceeds (x - m) v t then none else some x
      | none => none

/-- The `zscore` cleaning step as the spec words it, with sample statistics
(`ddof = 1`) of the non-missing subset.  Kept only to compare the spec's
reading against `zscoreClean`; a single-point subset has an undefined
(`NaN`) sample deviation, so nothing is removed there. -/
def zscoreCleanSpec (t : ℚ) (xs : List (Option ℚ)) : List (Option ℚ) :=
  let sub := subVals xs
  if sub.isEmpty then xs
  else
    let m := listMean sub
    let v := if sub.length ≤ 1 then 0
      else (sub.map fun x => (x - m) ^ 2).sum / ((sub.length : ℚ) - 1)
    xs.map fun o =>
      match o with
      | some x => if zExceeds (x - m) v t then none else some x
      | none => none

/-- Stable insertion into a sorted list. -/
def insertLe {α : Type} (le : α → α → Bool) (a : α) : List α → List α
  | [] => [a]
  | b :: l => if le a b then a :: b :: l else b :: insertLe le a l

/-- Stable insertion sort by a boolean comparison. -/
def sortLe {α : Type} (le : α → α → Bool) : List α → List α
  | [] => []
  | a :: l => insertLe le a (sortLe le l)

/-- Pandas `Series.quantile(q)` with linear interpolation over the sorted
non-missing values; missing when the series has no non-missing value. -/
def quantile (q : ℚ) (xs : List (Option ℚ)) : Option ℚ :=
  match sortLe (fun a b => decide (a ≤ b)) (subVals xs) with
  | [] => none
  | sub =>
    let pos := q * ((sub.length : ℚ) - 1)
    let lo := pos.floor
    let xi := sub.getD lo.toNat 0
    let xj := sub.getD pos.ceil.toNat 0
    some (xi + (xj - xi) * (pos - (lo : ℚ)))

/-- The `iqr` branch of `filter_data`: quartiles over the non-missing values,
entries strictly outside `[q1 - t*iqr, q3 + t*iqr]` become missing; missing
entries fail both strict comparisons and survive unchanged. -/
def iqrClean (t : ℚ) (xs : List (Option ℚ)) : List (Option ℚ) :=
  match quantile (1/4) xs, quantile (3/4) xs with
  | some q1, some q3 =>
    let iqr := q3 - q1
    let lo := q1 - t * iqr
    let hi := q3 + t * iqr
    xs.map fun o =>
      match o with
      | some x => if x < lo ∨ hi < x then none else some x
      | none => none
  | _, _ => xs

/-- Store an optional numeric value back into a cell column. -/
def encodeCell : Option ℚ → Cell
  | some x => Cell.num x
  | none => Cell.na

/-- Python `str.lower()` on the method-name strings the pipeline receives
(character-wise ASCII lowering). -/
def lowerStr (s : String) : String := ⟨s.toList.map Char.toLower⟩

/-- The per-column body of `Mettool.filter_data`: numeric coercion, optional
zero replacement, optional outlier removal (only when at least one value is
non-missing; unknown method strings clean nothing), re-encoded as cells. -/
def cleanCol (replace_zero remove_outliers : Bool) (method : String) (t : ℚ)
    (c : List Cell) : List Cell :=
  let xs := c.map coerceNum
  let xs := if replace_zero then replaceZeroes xs else xs
  let xs :=
    if remove_outliers && !(xs.all fun o => o.isNone) then
      if lowerStr method == "zscore" then zscoreClean t xs
      else if lowerStr method == "iqr" then iqrClean t xs
      else xs
    else xs
  xs.map encodeCell

/-- Rewrite every column of a table in place through a name-aware function. -/
def mapCols (f : String → List Cell → List Cell) (t : Table) : Table :=
  { t with cols := t.cols.map fun p => (p.1, f p.1 p.2) }

/-- `Mettool.filter_data`: every selected column other than the date column
is coerced to numeric and cleaned in place. -/
def filter_data (st : MState) (replace_zero remove_outliers : Bool)
    (method : String) (t : ℚ) : MState :=
  let nums := st.column_list.filter fun c => !(c == st.date_column)
  let f : String → List Cell → List Cell := fun n c =>
    if nums.contains n then cleanCol replace_zero remove_outliers method t c else c
  { st with data := mapCols f st.data }

/-- The optional-rational view of a column of a table. -/
def colQ (t : Table) (col : String) : List (Option ℚ) :=
  ((t.getCol col).getD []).map coerceNum

/-- Helper for `cumsum`: running total of the non-missing entries. -/
def cumsumAux (acc : ℚ) : List (Option ℚ) → List (Option ℚ)
  | [] => []
  | none :: l => none :: cumsumAux acc l
  | some x :: l => some (acc + x) :: cumsumAux (acc + x) l

/-- Pandas `Series.cumsum()` with its default `skipna=True`: missing entries
stay missing in the output but do not interrupt the running total. -/
def cumsum (xs : List (Option ℚ)) : List (Option ℚ) := cumsumAux 0 xs

/-- `series - series.mean()`: when the mean is missing (all values missing)
every difference is missing. -/
def subMean (xs : List (Option ℚ)) : List (Option ℚ) :=
  match seriesMean xs with
  | some m => xs.map fun o => o.map fun x => x - m
  | none => xs.map fun _ => none

/-- `Mettool.cusum`: `(self.data[col] - self.data[col].mean()).cumsum()`,
over the working table's current row order (no sorting here). -/
def cusum (st : MState) (col : String) : List (Option ℚ) :=
  cumsum (subMean (colQ st.data col))

/-- `Mettool.control_limits`.  `tppf p df` stands for the external
`scipy.stats.t.ppf(p, df)` critical value, abstracted as a function
parameter; float arithmetic is idealised as real arithmetic.  The
`(nan, nan)` branch is the `none` result. -/
noncomputable def control_limits (tppf : ℚ → Nat → ℝ) (st : MState)
    (col : String) (conf : ℚ) : Option (ℝ × ℝ) :=
  let s := subVals (colQ st.data col)
  if s.length < 2 then none
  else
    let m : ℚ := listMean s
    let t : ℝ := tppf (1 - (1 - conf / 100) / 2) (s.length - 1)
    let sd : ℝ := Real.sqrt ((((s.map fun x => (x - m) ^ 2).sum / ((s.length : ℚ) - 1) : ℚ) : ℝ))
    let se : ℝ := sd / Real.sqrt (s.length : ℝ)
    some ((m : ℝ) + t * se, (m : ℝ) - t * se)

/-- Rows where both columns are non-missing, paired (`DataFrame.corr` drops
incomplete pairs per column pair). -/
def bothVals (xs ys : List (Option ℚ)) : List (ℚ × ℚ) :=
  (xs.zip ys).filterMap fun p =>
    match p with
    | (some a, some b) => some (a, b)
    | _ => none

/-- One entry of `DataFrame.corr()`: Pearson correlation over the rows where
both columns are non-missing; missing (`NaN`) when either column is constant
or empty on that common subset. -/
noncomputable def corrEntry (xs ys : List (Option ℚ)) : Option ℝ :=
  let sub := bothVals xs ys
  let mx := listMean (sub.map Prod.fst)
  let my := listMean (sub.map Prod.snd)
  let sxx := (sub.map fun p => (p.1 - mx) ^ 2).sum
  let syy := (sub.map fun p => (p.2 - my) ^ 2).sum
  let sxy := (sub.map fun p => (p.1 - mx) * (p.2 - my)).sum
  if sxx = 0 ∨ syy = 0 then none
  else some ((sxy : ℝ) / Real.sqrt (((sxx : ℚ) : ℝ) * ((syy : ℚ) : ℝ)))

/-- Names of the numeric-dtype columns of a table, in table order
(`select_dtypes(include=np.number)`). -/
def numericNames (t : Table) : List String :=
  (t.cols.filter fun p => isNumericCol p.2).map Prod.fst

/-- `Mettool.correlation`: row/column labels and the square Pearson matrix
over the numeric columns of the working table, in table-column order. -/
noncomputable def correlation (st : MState) : List String × List (List (Option ℝ)) :=
  let ns := numericNames st.data
  (ns, ns.map fun a => ns.map fun b => corrEntry (colQ st.data a) (colQ st.data b))

/-- Comparison of sort keys with missing keys last
(`sort_values(..., na_position='last')`). -/
def keyLe : Option Int → Option Int → Bool
  | _, none => true
  | none, some _ => false
  | some a, some b => decide (a ≤ b)

/-- Order on optional dates through their keys, missing last. -/
def dateLe (a b : Option Date) : Bool := keyLe (a.map Date.key) (b.map Date.key)

/-- Strict ascending order on optional dates; never true on a missing date. -/
def dateLt (a b : Option Date) : Bool :=
  match a, b with
  | some x, some y => decide (x.key < y.key)
  | _, _ => false

/-- The coerced date column of a table. -/
def datesOf (t : Table) (dc : String) : List (Option Date) :=
  ((t.getCol dc).getD []).map coerceDate

/-- The date column of `df.sort_values(by=dc)`: since the sort key is the
date itself, the sorted frame's date column is the sorted date list. -/
def sortDates (ds : List (Option Date)) : List (Option Date) := sortLe dateLe ds

/-- The result a `runCusum` request hands back to the requesting layer:
the date sequence of a date-sorted copy of the working table, and one
CUSUM trace per requested column. -/
structure CusumOut where
  dates : List (Option Date)
  traces : List (String × List (Option ℚ))
deriving DecidableEq, Repr

/-- `run_cusum`: set the date column, select, clean with the default flags,
then emit the dates of a sorted copy of the working table next to CUSUM
traces computed over the unsorted working table. -/
def run_cusum (st : MState) (dateCol start stop : String) (cols : List String) :
    Except SelErr (CusumOut × MState) :=
  let st := { st with date_column := dateCol }
  match select_data st start stop cols with
  | .error e => .error e
  | .ok st2 =>
    let st3 := filter_data st2 true false "zscore" 3
    .ok ({ dates := sortDates (datesOf st3.data dateCol)
           traces := cols.map fun c => (c, cusum st3 c) }, st3)

/-- The per-period trace bundle of `run_control_graph`: sorted data points,
plus the control-limit pair when requested (`none` inside models the
`(nan, nan)` branch emitting empty traces) and the average when requested. -/
structure PeriodOut where
  xs : List (Option Date)
  ys : List (Option ℚ)
  limits : Option (Option (ℝ × ℝ))
  avg : Option (Option ℚ)

/-- The value/date pairs of a period's cleaned two-column table. -/
def pairRows (t : Table) (col dc : String) : List (Option ℚ × Option Date) :=
  (colQ t col).zip (datesOf t dc)

/-- Row sort of the period table by date, missing dates last
(`sort_values(by=date_column)`). -/
def sortPairs (prs : List (Option ℚ × Option Date)) : List (Option ℚ × Option Date) :=
  sortLe (fun a b => dateLe a.2 b.2) prs

/-- One loop iteration of `run_control_graph`: a fresh isolated instance is
built from a deep copy of the raw dataset, the period is selected and
cleaned there, and its traces are computed from that instance alone. -/
noncomputable def periodRun (tppf : ℚ → Nat → ℝ) (dateCol col : String)
    (conf : ℚ) (showLim showAvg : Bool) (raw : Table) (pr : String × String) :
    Except SelErr (PeriodOut × Table) :=
  let tmp : MState :=
    { date_column := dateCol, original_data := raw
      data := Table.empty, column_list := [] }
  match select_data tmp pr.1 pr.2 [col, dateCol] with
  | .error e => .error e
  | .ok st2 =>
    let st3 := filter_data st2 true false "zscore" 3
    let prs := sortPairs (pairRows st3.data col dateCol)
    .ok ({ xs := prs.map Prod.snd
           ys := prs.map Prod.fst
           limits := if showLim then some (control_limits tppf st3 col conf) else none
           avg := if showAvg then some (seriesMean (prs.map Prod.fst)) else none },
         st3.data)

/-- `pd.concat` of the per-period cleaned tables, which all share the same
two-column layout: columns are appended in period order. -/
def concatTables (ts : List Table) : Table :=
  match ts with
  | [] => Table.empty
  | t0 :: _ =>
    { nrow := (ts.map Table.nrow).sum
      cols := t0.names.map fun n =>
        (n, (ts.map fun t => (t.getCol n).getD []).foldr (· ++ ·) []) }

/-- Sequential per-period loop: the first period whose selection raises
aborts the whole run with that exception. -/
def runPeriods (f : String × String → Except SelErr (PeriodOut × Table)) :
    List (String × String) → Except SelErr (List (PeriodOut × Table))
  | [] => .ok []
  | p :: rest =>
    match f p, runPeriods f rest with
    | .ok a, .ok as => .ok (a :: as)
    | .error e, _ => .error e
    | .ok _, .error e => .error e

/-- `run_control_graph`: every period is run on its own isolated instance
against a copy of the raw dataset; afterwards the global instance's working
table is replaced by the concatenation of the per-period cleaned tables for
export.  Any selection exception aborts the whole request. -/
noncomputable def run_control_graph (tppf : ℚ → Nat → ℝ) (st : MState)
    (dateCol col : String) (conf : ℚ) (showLim showAvg : Bool)
    (periods : List (String × String)) :
    Except SelErr (List PeriodOut × MState) :=
  match runPeriods (periodRun tppf dateCol col conf showLim showAvg st.original_data) periods with
  | .error e => .error e
  | .ok outs =>
    .ok (outs.map Prod.fst, { st with data := concatTables (outs.map Prod.snd) })

/-! Concrete tables and instance states used by the witnesses and
counterexamples. -/

/-- A small working state with one numeric column `A = [1, missing, 2]`
already selected. -/
def t1 : Table :=
  { nrow := 3
    cols := [("A", [Cell.num 1, Cell.na, Cell.num 2]),
             ("Date", [Cell.date ⟨2023, 1, 1⟩, Cell.date ⟨2023, 1, 2⟩,
                       Cell.date ⟨2023, 1, 3⟩])] }

/-- The state of a `Mettool` instance holding `t1` as its working table. -/
def st1 : MState :=
  { date_column := "Date", original_data := t1, data := t1
    column_list := ["A", "Date"] }

/-- A working state with the numeric column `A = [1, 3]` selected. -/
def t2 : Table :=
  { nrow := 2
    cols := [("A", [Cell.num 1, Cell.num 3]),
             ("Date", [Cell.date ⟨2023, 1, 1⟩, Cell.date ⟨2023, 1, 2⟩])] }

/-- The state of a `Mettool` instance holding `t2` as its working table. -/
def st2 : MState :=
  { date_column := "Date", original_data := t2, data := t2
    column_list := ["A", "Date"] }

/-- A raw table whose single row is dated 2023-04-20. -/
def t3 : Table :=
  { nrow := 1
    cols := [("Date", [Cell.date ⟨2023, 4, 20⟩]), ("A", [Cell.num 1])] }

/-- A freshly loaded instance over `t3`. -/
def st3 : MState :=
  { date_column := "Date", original_data := t3, data := Table.empty
    column_list := [] }

/-- The expected result of the witness selection over `st1`: the rows dated
1 and 2 January survive the inclusive mask, the row dated 3 January does
not. -/
def st1sel : MState :=
  { date_column := "Date", original_data := t1
    data := { nrow := 2
              cols := [("A", [Cell.num 1, Cell.na]),
                       ("Date", [Cell.date ⟨2023, 1, 1⟩, Cell.date ⟨2023, 1, 2⟩])] }
    column_list := ["A", "Date"] }

/-- A table with a clean column, an all-zero column, and an all-missing
column named `Date`. -/
def t6 : Table :=
  { nrow := 2
    cols := [("Keep", [Cell.num 1, Cell.num 2]),
             ("Zeros", [Cell.num 0, Cell.num 0]),
             ("Date", [Cell.na, Cell.na])] }

/-- A raw table lacking a `Date` column. -/
def t7 : Table := { nrow := 1, cols := [("A", [Cell.num 1])] }

/-- A freshly loaded instance over `t7`, configured with the default date
column name. -/
def st7 : MState :=
  { date_column := "Date", original_data := t7, data := Table.empty
    column_list := [] }

/-- Expected bundle of the first witness period of the control-graph run
(1 Jan alone). -/
def po1 : PeriodOut :=
  { xs := [some ⟨2023, 1, 1⟩], ys := [some 1], limits := none, avg := none }

/-- Expected bundle of the second witness period of the control-graph run
(2-3 Jan). -/
def po2 : PeriodOut :=
  { xs := [some ⟨2023, 1, 2⟩, some ⟨2023, 1, 3⟩], ys := [none, some 2]
    limits := none, avg := none }

/-- Expected final state of the control-graph witness run: the raw dataset
untouched, the working table replaced by the concatenation of the two
cleaned periods. -/
def st8res : MState :=
  { date_column := "Date", original_data := t1
    data := { nrow := 3
              cols := [("A", [Cell.num 1, Cell.na, Cell.num 2]),
                       ("Date", [Cell.date ⟨2023, 1, 1⟩, Cell.date ⟨2023, 1, 2⟩,
                                 Cell.date ⟨2023, 1, 3⟩])] }
    column_list := ["A", "Date"] }

/-- A working table with two numeric columns and a date column. -/
def t9 : Table :=
  { nrow := 2
    cols := [("A", [Cell.num 1, Cell.num 2]),
             ("B", [Cell.num 2, Cell.num 1]),
             ("Date", [Cell.date ⟨2023, 1, 1⟩, Cell.date ⟨2023, 1, 2⟩])] }

/-- The state of a `Mettool` instance holding `t9` as its working table. -/
def st9 : MState :=
  { date_column := "Date", original_data := t9, data := t9
    column_list := ["A", "B", "Date"] }

/-! General lemmas shared by the claim theorems. -/

theorem filterMap_id_map_optionMap (f : ℚ → ℚ) :
    ∀ l : List (Option ℚ), (l.map (Option.map f)).filterMap id = (l.filterMap id).map f := by
  intro l
  induction l with
  | nil => rfl
  | cons a l ih => cases a <;> simp [ih]

theorem getD_map_optionMap (f : ℚ → ℚ) :
    ∀ (l : List (Option ℚ)) (i : Nat),
      (l.map (Option.map f)).getD i none = (l.getD i none).map f := by
  intro l
  induction l with
  | nil => intro i; rfl
  | cons a l ih =>
    intro i
    cases i with
    | zero => rfl
    | succ j => simpa using ih j

theorem cumsumAux_length (xs : List (Option ℚ)) :
    ∀ acc, (cumsumAux acc xs).length = xs.length := by
  induction xs with
  | nil => intro acc; rfl
  | cons a l ih => intro acc; cases a <;> simp [cumsumAux, ih]

theorem cumsumAux_getD (xs : List (Option ℚ)) :
    ∀ (acc : ℚ) (i : Nat), i < xs.length →
      (cumsumAux acc xs).getD i none =
        (xs.getD i none).map fun _ => acc + ((xs.take (i+1)).filterMap id).sum := by
  induction xs with
  | nil => intro acc i h; exact absurd h (Nat.not_lt_zero i)
  | cons a l ih =>
    intro acc i h
    cases a with
    | none =>
      cases i with
      | zero => simp [cumsumAux]
      | succ j =>
        have hj : j < l.length := by simpa using h
        simpa [cumsumAux] using ih acc j hj
    | some x =>
      cases i with
      | zero => simp [cumsumAux]
      | succ j =>
        have hj : j < l.length := by simpa using h
        have := ih (acc + x) j hj
        simp only [cumsumAux, List.getD_cons_succ, List.take_succ_cons,
          List.filterMap_cons, List.sum_cons, this]
        cases l.getD j none <;> simp [add_assoc]

/-! Claim C1: the CUSUM sequence. -/

/-- C1 counterexample: in the working column `A = [1, missing, 2]` the value
at index 1 is missing, yet `cusum` returns `0` (not missing) at index 2:
pandas `cumsum` skips missing values instead of propagating them, so the
claim's propagation sentence fails. -/
theorem c1_cusum_counterexample :
    colQ st1.data ("A") = [some 1, none, some 2] ∧
    cusum st1 ("A") = [some (-(1/2)), none, some 0] ∧
    ¬ (cusum st1 ("A")).getD 2 none = none := by
  have h : cusum st1 ("A") = [some (-(1/2)), none, some 0] := by
    norm_num [cusum, cumsum, cumsumAux, subMean, seriesMean, subVals, listMean,
      colQ, st1, t1, Table.getCol, coerceNum, List.find?, List.filterMap_cons, List.filterMap_nil]
  exact ⟨rfl, h, by rw [h]; decide⟩

/-- C1 (amended): for a column whose mean over the non-missing values is
defined, `cusum` keeps the row order and length, every missing entry yields
a missing CUSUM entry, and every non-missing position `i` carries
`Σ_{j ≤ i, x j non-missing} (x j - mean)` — missing values are skipped in
the running sum (they contribute nothing and do not propagate). -/
theorem c1_cusum (st : MState) (col : String) (m : ℚ)
    (hm : seriesMean (colQ st.data col) = some m) :
    (cusum st col).length = (colQ st.data col).length ∧
    ∀ i, i < (colQ st.data col).length →
      (cusum st col).getD i none =
        ((colQ st.data col).getD i none).map
          fun _ => ((((colQ st.data col).take (i+1)).filterMap id).map fun x => x - m).sum := by
  have hsub : subMean (colQ st.data col) =
      (colQ st.data col).map (Option.map fun x => x - m) := by
    unfold subMean
    rw [hm]
  constructor
  · rw [cusum, cumsum, cumsumAux_length, hsub, List.length_map]
  · intro i hi
    have hlen : i < (subMean (colQ st.data col)).length := by
      rw [hsub, List.length_map]; exact hi
    rw [cusum, cumsum, cumsumAux_getD _ 0 i hlen, hsub, getD_map_optionMap,
      ← List.map_take, filterMap_id_map_optionMap]
    cases (colQ st.data col).getD i none <;> simp

/-- C1 witness: the amended theorem applied to the concrete state `st1` at
index 2. -/
theorem c1_cusum_witness :
    seriesMean (colQ st1.data ("A")) = some (3/2) ∧
    (2 < (colQ st1.data ("A")).length ∧
      (cusum st1 ("A")).getD 2 none =
        ((colQ st1.data ("A")).getD 2 none).map
          fun _ => ((((colQ st1.data ("A")).take 3).filterMap id).map fun x => x - 3/2).sum) := by
  have hm : seriesMean (colQ st1.data ("A")) = some (3/2) := by
    norm_num [seriesMean, subVals, listMean, colQ, st1, t1, Table.getCol, coerceNum, List.find?, List.filterMap_cons, List.filterMap_nil]
  exact ⟨hm, by decide, (c1_cusum st1 ("A") (3/2) hm).2 2 (by decide)⟩

/-! Claim C2: z-score outlier removal. -/

theorem getD_map_fix {α β : Type} (f : α → β) (d : α) (e : β) (hf : f d = e) :
    ∀ (l : List α) (i : Nat), (l.map f).getD i e = f (l.getD i d) := by
  intro l
  induction l with
  | nil => intro i; simpa using hf.symm
  | cons a l ih =>
    intro i
    cases i with
    | zero => rfl
    | succ j => simpa using ih j

theorem getD_some_mem {α : Type} (l : List (Option α)) (i : Nat) (x : α)
    (h : l.getD i none = some x) : some x ∈ l := by
  induction l generalizing i with
  | nil => simp [List.getD] at h
  | cons a l ih =>
    cases i with
    | zero => simp_all
    | succ j => exact List.mem_cons_of_mem _ (ih j (by simpa using h))

theorem subVals_eq_nil_iff (xs : List (Option ℚ)) :
    subVals xs = [] ↔ (xs.all fun o => o.isNone) = true := by
  induction xs with
  | nil => simp [subVals]
  | cons a l ih => cases a <;> simp_all [subVals]

theorem find?_map_pair (f : String → List Cell → List Cell) (c : String) :
    ∀ l : List (String × List Cell),
      (((l.map fun p => (p.1, f p.1 p.2)).find? fun p => p.1 == c).map Prod.snd)
        = (((l.find? fun p => p.1 == c).map Prod.snd).map (f c)) := by
  intro l
  induction l with
  | nil => rfl
  | cons p l ih =>
    by_cases h : (p.1 == c) = true
    · have hc : p.1 = c := eq_of_beq h
      simp [List.find?_cons_of_pos, h, hc]
    · have hb : (p.1 == c) = false := by simpa using h
      simpa [List.find?_cons_of_neg, hb] using ih

theorem getCol_mapCols (f : String → List Cell → List Cell) (t : Table) (c : String) :
    (mapCols f t).getCol c = (t.getCol c).map (f c) := by
  unfold mapCols Table.getCol
  simpa using find?_map_pair f c t.cols

theorem listMean_sq_nonneg (l : List ℚ) (m : ℚ) :
    0 ≤ listMean (l.map fun y => (y - m) ^ 2) := by
  unfold listMean
  apply div_nonneg
  · apply List.sum_nonneg
    intro x hx
    rcases List.mem_map.mp hx with ⟨y, _, rfl⟩
    positivity
  · positivity

theorem sum_nonneg_eq_zero (l : List ℚ) (hnn : ∀ y ∈ l, 0 ≤ y) (h : l.sum = 0) :
    ∀ y ∈ l, y = 0 := by
  induction l with
  | nil => simp
  | cons a l ih =>
    have ha : 0 ≤ a := hnn a (by simp)
    have hrest : 0 ≤ l.sum := List.sum_nonneg fun y hy => hnn y (by simp [hy])
    have hsum : a + l.sum = 0 := by simpa using h
    have ha0 : a = 0 := by linarith
    intro y hy
    rcases List.mem_cons.mp hy with rfl | hy2
    · exact ha0
    · exact ih (fun z hz => hnn z (by simp [hz])) (by linarith) y hy2

theorem listMean_sq_eq_zero (l : List ℚ) (m : ℚ) (hne : ¬ l = [])
    (h0 : listMean (l.map fun y => (y - m) ^ 2) = 0) :
    ∀ x ∈ l, x = m := by
  intro x hx
  have hl0 : l.length ≠ 0 := fun h => hne (List.length_eq_zero.mp h)
  have hlen : ((l.map fun y => (y - m) ^ 2).length : ℚ) ≠ 0 := by
    rw [List.length_map]
    exact Nat.cast_ne_zero.mpr hl0
  have hsum : (l.map fun y => (y - m) ^ 2).sum = 0 := by
    unfold listMean at h0
    rcases div_eq_zero_iff.mp h0 with h | h
    · exact h
    · exact absurd h hlen
  have hz : ((x - m) ^ 2 : ℚ) = 0 := by
    have hnn : ∀ y ∈ l.map fun y => (y - m) ^ 2, 0 ≤ y := by
      intro y hy
      rcases List.mem_map.mp hy with ⟨z, _, rfl⟩
      positivity
    exact sum_nonneg_eq_zero _ hnn hsum _ (List.mem_map.mpr ⟨x, hx, rfl⟩)
  have : x - m = 0 := pow_eq_zero_iff (by norm_num) |>.mp hz
  linarith

/-- `zExceeds dev v t` decides the real z-score comparison
`t * sqrt v < |dev|` whenever `t` is nonnegative, `v` is nonnegative and
`dev` vanishes on a zero variance. -/
theorem zExceeds_iff_real (dev v t : ℚ) (ht : 0 ≤ t) (hv : 0 ≤ v)
    (hz : v = 0 → dev = 0) :
    zExceeds dev v t = true ↔ (t : ℝ) * Real.sqrt (v : ℝ) < |(dev : ℝ)| := by
  unfold zExceeds
  by_cases h0 : v = 0
  · simp only [h0, if_pos rfl]
    rw [hz h0]
    simp
  · have ht' : ¬ t < 0 := not_lt.mpr ht
    simp only [h0, if_neg h0, ht', if_neg ht', if_false, decide_eq_true_eq]
    have hvpos : (0 : ℝ) < (v : ℝ) := by
      have : (0 : ℚ) < v := lt_of_le_of_ne hv (Ne.symm h0)
      exact_mod_cast this
    constructor
    · intro hlt
      have hlt' : ((t : ℝ)) ^ 2 * (v : ℝ) < ((dev : ℝ)) ^ 2 := by exact_mod_cast hlt
      have hL : (t : ℝ) * Real.sqrt (v : ℝ) = Real.sqrt ((t : ℝ) ^ 2 * (v : ℝ)) := by
        rw [Real.sqrt_mul (by positivity), Real.sqrt_sq (by exact_mod_cast ht)]
      have hR : |(dev : ℝ)| = Real.sqrt ((dev : ℝ) ^ 2) := (Real.sqrt_sq_eq_abs _).symm
      rw [hL, hR]
      exact Real.sqrt_lt_sqrt (by positivity) hlt'
    · intro hlt
      have h1 : ((t : ℝ) * Real.sqrt (v : ℝ)) ^ 2 < |(dev : ℝ)| ^ 2 := by
        apply pow_lt_pow_left₀ hlt (by positivity)
        norm_num
      have h2 : ((t : ℝ) * Real.sqrt (v : ℝ)) ^ 2 = (t : ℝ) ^ 2 * (v : ℝ) := by
        rw [mul_pow, Real.sq_sqrt (le_of_lt hvpos)]
      rw [h2, sq_abs] at h1
      exact_mod_cast h1

/-- Unfolding of the per-column cleaning on the zscore path when the column
has at least one non-missing value after zero replacement. -/
theorem cleanCol_zscore (t : ℚ) (c : List Cell)
    (hne : ¬ subVals (replaceZeroes (c.map coerceNum)) = []) :
    cleanCol true true ("zscore") t c =
      (zscoreClean t (replaceZeroes (c.map coerceNum))).map encodeCell := by
  unfold cleanCol
  have h1 : (lowerStr ("zscore") == "zscore") = true := by decide
  have h2 : ¬ ((replaceZeroes (c.map coerceNum)).all fun o => o.isNone) = true := by
    intro hall
    exact hne ((subVals_eq_nil_iff _).mpr hall)
  simp [h1, h2]

theorem zscoreClean_length (t : ℚ) (xs : List (Option ℚ)) (hne : ¬ subVals xs = []) :
    (zscoreClean t xs).length = xs.length := by
  unfold zscoreClean
  have hE : (subVals xs).isEmpty = false := by
    cases h : subVals xs with
    | nil => exact absurd h hne
    | cons a l => rfl
  simp [hE]

theorem zscoreClean_getD (t : ℚ) (xs : List (Option ℚ)) (hne : ¬ subVals xs = []) (i : Nat) :
    (zscoreClean t xs).getD i none =
      (xs.getD i none).bind fun x =>
        if zExceeds (x - listMean (subVals xs))
            (listMean ((subVals xs).map fun y => (y - listMean (subVals xs)) ^ 2)) t
        then none else some x := by
  unfold zscoreClean
  have hE : (subVals xs).isEmpty = false := by
    cases h : subVals xs with
    | nil => exact absurd h hne
    | cons a l => rfl
  simp only [hE, Bool.false_eq_true, if_false]
  rw [getD_map_fix _ none none rfl]
  cases xs.getD i none <;> rfl

/-- C2 (amended): with `removeOutliers` enabled and method `zscore`, for every
column with at least one non-missing value after zero replacement, the
statistics are computed over the non-missing subset only, but with the
population standard deviation (`stats.zscore` default `ddof = 0`) rather
than the sample standard deviation; exactly the values whose z-score
magnitude exceeds the threshold become missing, in-threshold values are
unchanged, and missing values are never assigned a score. -/
theorem c2_zscore (st : MState) (c : String) (cells : List Cell) (t : ℚ)
    (xs : List (Option ℚ))
    (ht : 0 ≤ t) (hc : c ∈ st.column_list) (hdc : ¬ c = st.date_column)
    (hcol : st.data.getCol c = some cells)
    (hxs : xs = replaceZeroes (cells.map coerceNum))
    (hne : ¬ subVals xs = []) :
    ∃ out, (filter_data st true true ("zscore") t).data.getCol c = some out ∧
      out.length = cells.length ∧
      ∀ i, i < xs.length →
        (xs.getD i none = none → out.getD i Cell.na = Cell.na) ∧
        ∀ x, xs.getD i none = some x →
          out.getD i Cell.na =
            (if (t : ℝ) * Real.sqrt
                  ((listMean ((subVals xs).map fun y => (y - listMean (subVals xs)) ^ 2) : ℚ) : ℝ)
                < |(x : ℝ) - ((listMean (subVals xs) : ℚ) : ℝ)|
             then Cell.na else Cell.num x) := by
  have hmem : (st.column_list.filter fun n => !(n == st.date_column)).contains c = true := by
    rw [List.contains_eq_any_beq]
    apply List.any_eq_true.mpr
    refine ⟨c, List.mem_filter.mpr ⟨hc, ?_⟩, by simp⟩
    simp only [Bool.not_eq_eq_eq_not, Bool.not_false]
    exact beq_eq_false_iff_ne.mpr hdc
  have hout : (filter_data st true true ("zscore") t).data.getCol c =
      some ((zscoreClean t xs).map encodeCell) := by
    unfold filter_data
    rw [getCol_mapCols, hcol]
    simp only [Option.map_some', hmem, if_pos]
    rw [cleanCol_zscore t cells (hxs ▸ hne), hxs]
  refine ⟨(zscoreClean t xs).map encodeCell, hout, ?_, ?_⟩
  · rw [List.length_map, zscoreClean_length t xs hne, hxs]
    simp [replaceZeroes]
  · intro i hi
    have hbase : ((zscoreClean t xs).map encodeCell).getD i Cell.na =
        encodeCell ((zscoreClean t xs).getD i none) := getD_map_fix encodeCell none Cell.na rfl _ i
    constructor
    · intro hnone
      rw [hbase, zscoreClean_getD t xs hne i, hnone]
      rfl
    · intro x hx
      rw [hbase, zscoreClean_getD t xs hne i, hx]
      have hxmem : x ∈ subVals xs := by
        exact List.mem_filterMap.mpr ⟨some x, getD_some_mem xs i x hx, rfl⟩
      have hv : 0 ≤ listMean ((subVals xs).map fun y => (y - listMean (subVals xs)) ^ 2) :=
        listMean_sq_nonneg _ _
      have hz : listMean ((subVals xs).map fun y => (y - listMean (subVals xs)) ^ 2) = 0 →
          x - listMean (subVals xs) = 0 := by
        intro h0
        have := listMean_sq_eq_zero (subVals xs) (listMean (subVals xs)) hne h0 x hxmem
        linarith
      have hiff := zExceeds_iff_real (x - listMean (subVals xs))
        (listMean ((subVals xs).map fun y => (y - listMean (subVals xs)) ^ 2)) t ht hv hz
      push_cast at hiff
      by_cases hzx : zExceeds (x - listMean (subVals xs))
          (listMean ((subVals xs).map fun y => (y - listMean (subVals xs)) ^ 2)) t = true
      · rw [if_pos (hiff.mp hzx)]
        simp [hzx, encodeCell, Option.bind]
      · rw [if_neg (fun hr => hzx (hiff.mpr hr))]
        have hzx2 : zExceeds (x - listMean (subVals xs))
            (listMean ((subVals xs).map fun y => (y - listMean (subVals xs)) ^ 2)) t = false := by
          simpa using hzx
        simp [hzx2, encodeCell, Option.bind]

/-- C2 counterexample: on the column `[1, 3]` with threshold `9/10`, the code
removes both values — their population (`ddof = 0`) z-scores are `1 > 9/10` —
although their sample-statistics (`ddof = 1`) z-scores are `1/sqrt 2 < 9/10`,
so the claim's sample-statistics reading (`zscoreCleanSpec`) keeps both. -/
theorem c2_zscore_counterexample :
    colQ (filter_data st2 true true ("zscore") (9/10)).data ("A") = [none, none] ∧
    zscoreCleanSpec (9/10) [some 1, some 3] = [some 1, some 3] := by
  have hAD : ¬ ("A" : String) = "Date" := by decide
  have hz1 : (lowerStr ("zscore") == "zscore") = true := by decide
  constructor
  · norm_num [filter_data, mapCols, colQ, Table.getCol, st2, t2, List.find?,
      cleanCol, hz1, hAD, List.contains, List.elem, replaceZeroes, zscoreClean,
      zExceeds, subVals, listMean, coerceNum, List.filterMap_cons,
      List.filterMap_nil, encodeCell]
  · norm_num [zscoreCleanSpec, zExceeds, subVals, listMean,
      List.filterMap_cons, List.filterMap_nil]

/-- C2 witness: the amended theorem applied to the state `st2` with the
default threshold 3. -/
theorem c2_zscore_witness :
    ∃ out, (filter_data st2 true true ("zscore") 3).data.getCol ("A") = some out ∧
      out.length = [Cell.num 1, Cell.num 3].length ∧
      ∀ i, i < ([some 1, some 3] : List (Option ℚ)).length →
        (([some 1, some 3] : List (Option ℚ)).getD i none = none →
          out.getD i Cell.na = Cell.na) ∧
        ∀ x, ([some 1, some 3] : List (Option ℚ)).getD i none = some x →
          out.getD i Cell.na =
            (if (3 : ℝ) * Real.sqrt
                  ((listMean ((subVals [some 1, some 3]).map
                      fun y => (y - listMean (subVals [some 1, some 3])) ^ 2) : ℚ) : ℝ)
                < |(x : ℝ) - ((listMean (subVals [some 1, some 3]) : ℚ) : ℝ)|
             then Cell.na else Cell.num x) :=
  c2_zscore st2 ("A") [Cell.num 1, Cell.num 3] 3 [some 1, some 3]
    (by norm_num) (by decide) (by decide) (by rfl)
    (by norm_num [replaceZeroes, coerceNum]) (by decide)

/-! Claim C3: the date-parsing ambiguity rule. -/

/-- C3 counterexample: with `start = "2023-01-10"` (no slash) and
`end = "05/04/2023"`, the code parses the end literal month-first
(4 May) because `dayfirst` comes from the start literal alone, while the
claim's per-literal rule parses it day-first (5 April); over `t3` the row
dated 20 April is selected by the code but not under the claim's reading. -/
theorem c3_dayfirst_counterexample :
    to_datetime ("05/04/2023") true = some ⟨2023, 4, 5⟩ ∧
    to_datetime ("05/04/2023") false = some ⟨2023, 5, 4⟩ ∧
    ((select_data st3 ("2023-01-10") ("05/04/2023") [("A")]).toOption.map
      fun s => s.data.nrow) = some 1 ∧
    ((select_data_spec st3 ("2023-01-10") ("05/04/2023") [("A")]).toOption.map
      fun s => s.data.nrow) = some 0 := by
  refine ⟨by decide, by decide, by decide, by decide⟩

/-- C3 (amended): the `dayfirst` flag is derived from the start literal
alone and applied to both literals; consequently whenever start and end
agree on containing a slash, each literal is parsed exactly as the spec's
per-literal rule says, and the spec's two example calls select the same
rows from any state. -/
theorem c3_dayfirst (st : MState) (start stop : String) (cols : List String)
    (h : start.toList.contains '/' = stop.toList.contains '/') :
    select_data st start stop cols = select_data_spec st start stop cols ∧
    ∀ st2 cols2, select_data st2 ("01/02/2023") ("28/02/2023") cols2 =
      select_data st2 ("2023-02-01") ("2023-02-28") cols2 := by
  constructor
  · unfold select_data select_data_spec
    rw [h]
  · intro st2 cols2
    rfl

/-- C3 witness: the amended theorem applied to `st3` and the spec's
slash-formatted example literals. -/
theorem c3_dayfirst_witness :
    (("01/02/2023" : String).toList.contains '/' =
      ("28/02/2023" : String).toList.contains '/') ∧
    select_data st3 ("01/02/2023") ("28/02/2023") [("A")] =
      select_data_spec st3 ("01/02/2023") ("28/02/2023") [("A")] :=
  ⟨by decide, (c3_dayfirst st3 ("01/02/2023") ("28/02/2023") [("A")] (by decide)).1⟩

/-! Claim C4: confidence-interval control limits. -/

/-- C4: `control_limits` returns missing limits when the column has fewer
than two non-missing values; otherwise it returns
`(mean + t*se, mean - t*se)` where `mean` is the sample mean of the
non-missing values, `se` is the `ddof = 1` sample standard deviation divided
by `sqrt n`, and `t` is the two-sided Student-t critical value
`tppf ((1 + conf/100)/2) (n - 1)`; the interval is symmetric around the
sample mean. -/
theorem c4_control_limits (tppf : ℚ → Nat → ℝ) (st : MState) (col : String)
    (conf : ℚ) :
    ((subVals (colQ st.data col)).length < 2 →
      control_limits tppf st col conf = none) ∧
    (2 ≤ (subVals (colQ st.data col)).length →
      ∃ up lo, control_limits tppf st col conf = some (up, lo) ∧
        up = (listMean (subVals (colQ st.data col)) : ℝ)
            + tppf ((1 + conf / 100) / 2) ((subVals (colQ st.data col)).length - 1)
              * (Real.sqrt ((((subVals (colQ st.data col)).map
                    fun x => (x - listMean (subVals (colQ st.data col))) ^ 2).sum
                      / (((subVals (colQ st.data col)).length : ℚ) - 1) : ℚ))
                 / Real.sqrt ((subVals (colQ st.data col)).length : ℝ)) ∧
        lo = (listMean (subVals (colQ st.data col)) : ℝ)
            - tppf ((1 + conf / 100) / 2) ((subVals (colQ st.data col)).length - 1)
              * (Real.sqrt ((((subVals (colQ st.data col)).map
                    fun x => (x - listMean (subVals (colQ st.data col))) ^ 2).sum
                      / (((subVals (colQ st.data col)).length : ℚ) - 1) : ℚ))
                 / Real.sqrt ((subVals (colQ st.data col)).length : ℝ)) ∧
        up + lo = 2 * (listMean (subVals (colQ st.data col)) : ℝ)) := by
  have harg : (1 : ℚ) - (1 - conf / 100) / 2 = (1 + conf / 100) / 2 := by ring
  constructor
  · intro h
    unfold control_limits
    rw [if_pos h]
  · intro h
    unfold control_limits
    rw [if_neg (not_lt.mpr h), harg]
    exact ⟨_, _, rfl, rfl, rfl, by ring⟩

/-- C4 witness: the theorem applied to the state `st2` (column `[10, 12]`
would behave identically; `st2`'s column `[1, 3]` has exactly two samples)
at 95 percent confidence with an arbitrary critical-value oracle. -/
theorem c4_control_limits_witness :
    2 ≤ (subVals (colQ st2.data ("A"))).length ∧
    ∃ up lo, control_limits (fun _ _ => (2 : ℝ)) st2 ("A") 95 = some (up, lo) ∧
      up + lo = 2 * (listMean (subVals (colQ st2.data ("A"))) : ℝ) := by
  have h2 : 2 ≤ (subVals (colQ st2.data ("A"))).length := by decide
  obtain ⟨up, lo, heq, hup, hlo, hsym⟩ :=
    (c4_control_limits (fun _ _ => (2 : ℝ)) st2 ("A") 95).2 h2
  exact ⟨h2, up, lo, heq, hsym⟩

/-! Claim C5: the inclusive row mask of the date-range selection. -/

theorem projectCols_lookup (df : Table) :
    ∀ (cols2 : List String) (plist : List (String × List Cell)),
      projectCols df cols2 = some plist → ∀ n ∈ cols2,
        ∃ c0, df.getCol n = some c0 ∧
          ((plist.find? fun p => p.1 == n).map Prod.snd) = some c0 := by
  intro cols2
  induction cols2 with
  | nil => intro plist hp n hn; simp at hn
  | cons c rest ih =>
    intro plist hp n hn
    unfold projectCols at hp
    cases hc : df.getCol c with
    | none => rw [hc] at hp; simp at hp
    | some cl =>
      cases hrest : projectCols df rest with
      | none => rw [hc, hrest] at hp; simp at hp
      | some ps =>
        rw [hc, hrest] at hp
        simp only [Option.some.injEq] at hp
        subst hp
        rcases List.mem_cons.mp hn with rfl | hn2
        · exact ⟨cl, hc, by simp [List.find?_cons]⟩
        · by_cases hcn : (c == n) = true
          · have hce : c = n := eq_of_beq hcn
            subst hce
            exact ⟨cl, hc, by simp [List.find?_cons]⟩
          · obtain ⟨c0, h1, h2⟩ := ih ps hrest n hn2
            refine ⟨c0, h1, ?_⟩
            simpa [List.find?_cons, hcn] using h2

/-- C5: on a successful selection, the row mask holds exactly at the rows
whose date cell parses to a date inside the inclusive interval; a row dated
exactly at either bound is kept, a row whose key is one unit outside either
bound is dropped, an unparseable (missing) date never satisfies the mask,
and every selected column is the source column filtered by this mask. -/
theorem c5_select_mask (st : MState) (sdt edt : Date) (cols : List String)
    (st2 : MState) (hsel : select_with_dates st sdt edt cols = .ok st2) :
    (∀ i, i < ((st.original_data.getCol st.date_column).getD []).length →
      ((selectMask sdt edt ((st.original_data.getCol st.date_column).getD [])).getD i false = true
        ↔ ∃ dt, coerceDate (((st.original_data.getCol st.date_column).getD []).getD i Cell.na) = some dt
            ∧ sdt.key ≤ dt.key ∧ dt.key ≤ edt.key)) ∧
    (sdt.key ≤ edt.key →
      maskEntry sdt edt (some sdt) = true ∧ maskEntry sdt edt (some edt) = true) ∧
    (∀ dt : Date, dt.key < sdt.key ∨ edt.key < dt.key →
      maskEntry sdt edt (some dt) = false) ∧
    maskEntry sdt edt none = false ∧
    (∀ n, n ∈ st2.column_list →
      ∃ c0, (coerceDateCol st.original_data st.date_column).getCol n = some c0 ∧
        st2.data.getCol n =
          some (applyMask
            (selectMask sdt edt ((st.original_data.getCol st.date_column).getD [])) c0)) := by
  refine ⟨?_, ?_, ?_, rfl, ?_⟩
  · intro i hi
    unfold selectMask
    rw [getD_map_fix (fun x => maskEntry sdt edt (coerceDate x)) Cell.na false rfl]
    cases hcd : coerceDate (((st.original_data.getCol st.date_column).getD []).getD i Cell.na) with
    | none => simp [maskEntry, hcd]
    | some dt =>
      simp only [maskEntry, hcd, Bool.and_eq_true, decide_eq_true_eq]
      constructor
      · rintro ⟨h1, h2⟩; exact ⟨dt, rfl, h1, h2⟩
      · rintro ⟨dt2, heq, h1, h2⟩
        cases heq
        exact ⟨h1, h2⟩
  · intro hle
    constructor <;> simp [maskEntry, hle]
  · intro dt hout
    rcases hout with h | h <;> simp [maskEntry] <;> omega
  · intro n hn
    unfold select_with_dates at hsel
    by_cases hr : edt.key < sdt.key
    · rw [if_pos hr] at hsel; exact absurd hsel (by simp)
    rw [if_neg hr] at hsel
    by_cases hdc : st.date_column ∈ st.original_data.names
    · rw [if_pos hdc] at hsel
      simp only [] at hsel
      cases hp : projectCols (coerceDateCol st.original_data st.date_column)
          (if st.date_column ∈ cols then cols else cols ++ [st.date_column]) with
      | none => rw [hp] at hsel; exact absurd hsel (by simp)
      | some plist =>
        rw [hp] at hsel
        simp only [Except.ok.injEq] at hsel
        subst hsel
        obtain ⟨c0, h1, h2⟩ := projectCols_lookup _ _ plist hp n hn
        refine ⟨c0, h1, ?_⟩
        have hfm := find?_map_pair (fun _ c => applyMask
          (selectMask sdt edt ((st.original_data.getCol st.date_column).getD [])) c) n plist
        show ((plist.map fun p => (p.1, applyMask
            (selectMask sdt edt ((st.original_data.getCol st.date_column).getD []))
            p.2)).find? fun p => p.1 == n).map Prod.snd = _
        rw [hfm, h2]
        rfl
    · rw [if_neg hdc] at hsel; exact absurd hsel (by simp)

/-- C5 witness: the theorem applied to a concrete selection over `st1`. -/
theorem c5_select_mask_witness :
    select_with_dates st1 ⟨2023, 1, 1⟩ ⟨2023, 1, 2⟩ [("A")] = .ok st1sel ∧
    (0 < ((st1.original_data.getCol st1.date_column).getD []).length ∧
      ((selectMask ⟨2023, 1, 1⟩ ⟨2023, 1, 2⟩
          ((st1.original_data.getCol st1.date_column).getD [])).getD 0 false = true ↔
        ∃ dt, coerceDate (((st1.original_data.getCol st1.date_column).getD []).getD 0 Cell.na)
            = some dt ∧
          Date.key ⟨2023, 1, 1⟩ ≤ dt.key ∧ dt.key ≤ Date.key ⟨2023, 1, 2⟩)) := by
  have hsel : select_with_dates st1 ⟨2023, 1, 1⟩ ⟨2023, 1, 2⟩ [("A")] = .ok st1sel := by rfl
  exact ⟨hsel, by decide,
    (c5_select_mask st1 ⟨2023, 1, 1⟩ ⟨2023, 1, 2⟩ [("A")] st1sel hsel).1 0 (by decide)⟩

/-! Claim C6: junk-column pruning. -/

/-- C6: pruning at threshold `4/5` keeps the row count and well-formedness,
preserves the relative column order, and keeps exactly the column named
`Date` (regardless of its score) plus the columns whose junk score —
missing fraction plus, for numeric-dtype columns only, zero fraction — is
strictly below the threshold; equivalently a column is dropped iff it is
not the date column and its score reaches the threshold. -/
theorem c6_prune (t : Table) (hw : t.WF) (h0 : 0 < t.nrow) :
    (remove_junk_columns (4/5) t).nrow = t.nrow ∧
    (remove_junk_columns (4/5) t).WF ∧
    ((remove_junk_columns (4/5) t).cols.map Prod.fst).Sublist (t.cols.map Prod.fst) ∧
    ∀ p ∈ t.cols,
      (p ∈ (remove_junk_columns (4/5) t).cols ↔
        p.1 = "Date" ∨
          (p.2.countP cellIsNa : ℚ) / (t.nrow : ℚ)
            + (if isNumericCol p.2 then (p.2.countP cellIsZero : ℚ) / (t.nrow : ℚ) else 0)
            < 4/5) := by
  refine ⟨rfl, ?_, ?_, ?_⟩
  · intro p hp
    exact hw p (List.mem_of_mem_filter hp)
  · exact (List.filter_sublist t.cols).map Prod.fst
  · intro p hp
    have hnz : ¬ t.nrow = 0 := Nat.pos_iff_ne_zero.mp h0
    constructor
    · intro hmem
      have hq := List.of_mem_filter hmem
      rcases Bool.or_eq_true_iff.mp hq with h | h
      · exact Or.inl (eq_of_beq h)
      · right
        rw [junkKeep, if_neg hnz] at h
        have := of_decide_eq_true h
        simpa [junkScore] using this
    · intro hor
      apply List.mem_filter.mpr
      refine ⟨hp, ?_⟩
      rcases hor with h | h
      · simp [h]
      · apply Bool.or_eq_true_iff.mpr
        right
        rw [junkKeep, if_neg hnz]
        exact decide_eq_true (by simpa [junkScore] using h)

/-- C6 witness: the theorem applied to `t6` at its all-zero column. -/
theorem c6_prune_witness :
    t6.WF ∧ 0 < t6.nrow ∧
    (("Zeros", [Cell.num 0, Cell.num 0]) ∈ (remove_junk_columns (4/5) t6).cols ↔
      ("Zeros" : String) = "Date" ∨
        (([Cell.num 0, Cell.num 0].countP cellIsNa : ℚ) / (t6.nrow : ℚ)
          + (if isNumericCol [Cell.num 0, Cell.num 0] then
              ([Cell.num 0, Cell.num 0].countP cellIsZero : ℚ) / (t6.nrow : ℚ) else 0)
          < 4/5)) := by
  have hw : t6.WF := by
    intro p hp
    fin_cases hp <;> rfl
  have h0 : 0 < t6.nrow := by decide
  exact ⟨hw, h0, (c6_prune t6 hw h0).2.2.2 ("Zeros", [Cell.num 0, Cell.num 0]) (by decide)⟩

/-! Claim C7: selection failure modes. -/

/-- C7 counterexample: with the date column absent AND start after end, the
code raises the range error — not the missing-column error the claim
requires whenever the configured date column is absent — because the range
check runs first. -/
theorem c7_errors_counterexample :
    ¬ ("Date" ∈ st7.original_data.names) ∧
    select_data st7 ("2023-02-02") ("2023-02-01") [("A")] = .error .rangeErr ∧
    SelErr.rangeErr ≠ SelErr.missingCol := by
  exact ⟨by decide, by rfl, by decide⟩

/-- C7 (amended): once both date literals parse, `select_data` checks the
range first: when start is strictly after end it fails with the range error
(even if the date column is also missing); when the range is valid and the
configured date-column name is absent from the raw table it fails with the
missing-column error; in both cases the exception-semantics wrapper hands
back the instance state unchanged — no partial computation is kept. -/
theorem c7_errors (st : MState) (start stop : String) (cols : List String)
    (sdt edt : Date)
    (hs : to_datetime start (start.toList.contains '/') = some sdt)
    (he : to_datetime stop (start.toList.contains '/') = some edt) :
    (edt.key < sdt.key →
      select_data st start stop cols = .error .rangeErr ∧
      select_data_run st start stop cols = (st, some SelErr.rangeErr)) ∧
    (¬ edt.key < sdt.key → ¬ st.date_column ∈ st.original_data.names →
      select_data st start stop cols = .error .missingCol ∧
      select_data_run st start stop cols = (st, some SelErr.missingCol)) := by
  have hsel : select_data st start stop cols = select_with_dates st sdt edt cols := by
    show (match to_datetime start (start.toList.contains '/') with
      | none => Except.error SelErr.parseErr
      | some d1 =>
        match to_datetime stop (start.toList.contains '/') with
        | none => Except.error SelErr.parseErr
        | some d2 => select_with_dates st d1 d2 cols) = select_with_dates st sdt edt cols
    rw [hs, he]
  constructor
  · intro hr
    have h1 : select_data st start stop cols = .error .rangeErr := by
      rw [hsel]
      unfold select_with_dates
      rw [if_pos hr]
    refine ⟨h1, ?_⟩
    unfold select_data_run
    rw [h1]
  · intro hr hdc
    have h1 : select_data st start stop cols = .error .missingCol := by
      rw [hsel]
      unfold select_with_dates
      rw [if_neg hr, if_neg hdc]
    refine ⟨h1, ?_⟩
    unfold select_data_run
    rw [h1]

/-- C7 witness: the amended theorem applied to `st7` on both failure
branches. -/
theorem c7_errors_witness :
    (select_data st7 ("2023-02-02") ("2023-02-01") [("A")] = .error .rangeErr ∧
      select_data_run st7 ("2023-02-02") ("2023-02-01") [("A")]
        = (st7, some SelErr.rangeErr)) ∧
    (select_data st7 ("2023-02-01") ("2023-02-02") [("A")] = .error .missingCol ∧
      select_data_run st7 ("2023-02-01") ("2023-02-02") [("A")]
        = (st7, some SelErr.missingCol)) :=
  ⟨(c7_errors st7 ("2023-02-02") ("2023-02-01") [("A")] ⟨2023, 2, 2⟩ ⟨2023, 2, 1⟩
      (by decide) (by decide)).1 (by decide),
   (c7_errors st7 ("2023-02-01") ("2023-02-02") [("A")] ⟨2023, 2, 1⟩ ⟨2023, 2, 2⟩
      (by decide) (by decide)).2 (by decide) (by decide)⟩

/-! Claim C8: per-period isolation of the control-graph run. -/

theorem runPeriods_append (f : String × String → Except SelErr (PeriodOut × Table)) :
    ∀ (ps1 : List (String × String)) (p : String × String)
      (ps2 : List (String × String)) (rs : List (PeriodOut × Table)),
      runPeriods f (ps1 ++ p :: ps2) = .ok rs →
        ∃ a, f p = .ok a ∧ rs.get? ps1.length = some a ∧
          runPeriods f [p] = .ok [a] := by
  intro ps1
  induction ps1 with
  | nil =>
    intro p ps2 rs h
    rw [List.nil_append] at h
    unfold runPeriods at h
    cases hp : f p with
    | error e => rw [hp] at h; simp at h
    | ok a =>
      cases hrest : runPeriods f ps2 with
      | error e => rw [hp, hrest] at h; simp at h
      | ok as =>
        rw [hp, hrest] at h
        simp only [Except.ok.injEq] at h
        subst h
        refine ⟨a, rfl, rfl, ?_⟩
        unfold runPeriods
        rw [hp]
        rfl
  | cons q ps1 ih =>
    intro p ps2 rs h
    rw [List.cons_append] at h
    unfold runPeriods at h
    cases hq : f q with
    | error e => rw [hq] at h; simp at h
    | ok a =>
      cases hrest : runPeriods f (ps1 ++ p :: ps2) with
      | error e => rw [hq, hrest] at h; simp at h
      | ok as =>
        rw [hq, hrest] at h
        simp only [Except.ok.injEq] at h
        subst h
        obtain ⟨b, h1, h2, h3⟩ := ih p ps2 as hrest
        exact ⟨b, h1, by simpa using h2, h3⟩

/-- C8: in a multi-period control-graph run, every period is computed in
isolation from a fresh instance over the raw dataset alone: the bundle
emitted for a period embedded in any period list equals the bundle of a run
over that single period, the surrounding periods play no role in it, and
the raw dataset of the instance is never mutated — only the working table
is replaced by the concatenated per-period cleaned tables. -/
theorem c8_period_isolation (tppf : ℚ → Nat → ℝ) (st : MState)
    (dateCol col : String) (conf : ℚ) (showLim showAvg : Bool)
    (ps1 ps2 : List (String × String)) (p : String × String)
    (outs : List PeriodOut) (st2 : MState)
    (hrun : run_control_graph tppf st dateCol col conf showLim showAvg
      (ps1 ++ p :: ps2) = .ok (outs, st2)) :
    (∃ a, periodRun tppf dateCol col conf showLim showAvg st.original_data p = .ok a ∧
      outs.get? ps1.length = some a.1 ∧
      run_control_graph tppf st dateCol col conf showLim showAvg [p]
        = .ok ([a.1], { st with data := concatTables [a.2] })) ∧
    st2.original_data = st.original_data ∧
    st2.date_column = st.date_column ∧
    st2.column_list = st.column_list := by
  unfold run_control_graph at hrun
  cases hr : runPeriods (periodRun tppf dateCol col conf showLim showAvg st.original_data)
      (ps1 ++ p :: ps2) with
  | error e => rw [hr] at hrun; simp at hrun
  | ok rs =>
    rw [hr] at hrun
    simp only [Except.ok.injEq, Prod.mk.injEq] at hrun
    obtain ⟨houts, hst2⟩ := hrun
    subst houts
    subst hst2
    obtain ⟨a, h1, h2, h3⟩ := runPeriods_append _ ps1 p ps2 rs hr
    refine ⟨⟨a, h1, ?_, ?_⟩, rfl, rfl, rfl⟩
    · have hmap : (rs.map Prod.fst).get? ps1.length = (rs.get? ps1.length).map Prod.fst := by
        simp [List.get?_eq_getElem?]
      rw [hmap, h2]
      rfl
    · unfold run_control_graph
      rw [h3]
      rfl

/-- C8 witness: the theorem applied to a concrete two-period run over `st1`,
isolating the second period. -/
theorem c8_period_isolation_witness :
    run_control_graph (fun _ _ => (0 : ℝ)) st1 ("Date") ("A") 95 false false
      [("2023-01-01", "2023-01-01"), ("2023-01-02", "2023-01-03")]
      = .ok ([po1, po2], st8res) ∧
    (∃ a, periodRun (fun _ _ => (0 : ℝ)) ("Date") ("A") 95 false false
        st1.original_data ("2023-01-02", "2023-01-03") = .ok a ∧
      [po1, po2].get? 1 = some a.1 ∧
      run_control_graph (fun _ _ => (0 : ℝ)) st1 ("Date") ("A") 95 false false
        [("2023-01-02", "2023-01-03")]
        = .ok ([a.1], { st1 with data := concatTables [a.2] })) ∧
    st8res.original_data = st1.original_data := by
  have hrun : run_control_graph (fun _ _ => (0 : ℝ)) st1 ("Date") ("A") 95 false false
      [("2023-01-01", "2023-01-01"), ("2023-01-02", "2023-01-03")]
      = .ok ([po1, po2], st8res) := by rfl
  obtain ⟨h1, h2, h3, h4⟩ := c8_period_isolation (fun _ _ => (0 : ℝ)) st1 ("Date") ("A")
    95 false false [("2023-01-01", "2023-01-01")] [] ("2023-01-02", "2023-01-03")
    [po1, po2] st8res hrun
  exact ⟨hrun, h1, h2⟩

/-! Claim C9: the correlation matrix. -/

theorem getD_map_lt {α β : Type} (f : α → β) :
    ∀ (l : List α) (i : Nat), i < l.length → ∀ (d : α) (e : β),
      (l.map f).getD i e = f (l.getD i d) := by
  intro l
  induction l with
  | nil => intro i hi; exact absurd hi (Nat.not_lt_zero i)
  | cons a l ih =>
    intro i hi d e
    cases i with
    | zero => rfl
    | succ j => simpa using ih j (by simpa using hi) d e

theorem bothVals_swap : ∀ (xs ys : List (Option ℚ)),
    bothVals ys xs = (bothVals xs ys).map Prod.swap
  | [], [] => rfl
  | [], _ :: _ => rfl
  | _ :: _, [] => rfl
  | a :: l, b :: m => by
    have ih := bothVals_swap l m
    cases a with
    | none =>
      cases b with
      | none => exact ih
      | some y => exact ih
    | some x =>
      cases b with
      | none => exact ih
      | some y =>
        show (y, x) :: bothVals m l = ((x, y) :: bothVals l m).map Prod.swap
        rw [List.map_cons, ih]
        rfl

theorem bothVals_self : ∀ xs : List (Option ℚ),
    bothVals xs xs = (subVals xs).map fun a => (a, a)
  | [] => rfl
  | a :: l => by
    have ih := bothVals_self l
    cases a with
    | none => exact ih
    | some x =>
      show (x, x) :: bothVals l l = ((x :: subVals l).map fun a => (a, a))
      rw [List.map_cons, ih]

theorem corrEntry_symm (xs ys : List (Option ℚ)) : corrEntry xs ys = corrEntry ys xs := by
  unfold corrEntry
  rw [bothVals_swap xs ys]
  simp only [List.map_map]
  have h1 : (Prod.fst ∘ Prod.swap : ℚ × ℚ → ℚ) = Prod.snd := by funext p; rfl
  have h2 : (Prod.snd ∘ Prod.swap : ℚ × ℚ → ℚ) = Prod.fst := by funext p; rfl
  have h3 : ∀ c : ℚ, ((fun p => (p.1 - c) ^ 2) ∘ Prod.swap : ℚ × ℚ → ℚ)
      = fun p => (p.2 - c) ^ 2 := by intro c; funext p; rfl
  have h4 : ∀ c : ℚ, ((fun p => (p.2 - c) ^ 2) ∘ Prod.swap : ℚ × ℚ → ℚ)
      = fun p => (p.1 - c) ^ 2 := by intro c; funext p; rfl
  have h5 : ∀ c d : ℚ, ((fun p => (p.1 - c) * (p.2 - d)) ∘ Prod.swap : ℚ × ℚ → ℚ)
      = fun p => (p.2 - c) * (p.1 - d) := by intro c d; funext p; rfl
  simp only [h1, h2, h3, h4, h5]
  by_cases hc : (((bothVals xs ys).map
      fun p => (p.1 - listMean ((bothVals xs ys).map Prod.fst)) ^ 2).sum = 0 ∨
      ((bothVals xs ys).map
      fun p => (p.2 - listMean ((bothVals xs ys).map Prod.snd)) ^ 2).sum = 0)
  · rw [if_pos hc, if_pos (Or.symm hc)]
  · rw [if_neg hc, if_neg (fun h => hc (Or.symm h))]
    have hxy : ((bothVals xs ys).map
        fun p => (p.2 - listMean ((bothVals xs ys).map Prod.snd))
          * (p.1 - listMean ((bothVals xs ys).map Prod.fst))).sum
        = ((bothVals xs ys).map
        fun p => (p.1 - listMean ((bothVals xs ys).map Prod.fst))
          * (p.2 - listMean ((bothVals xs ys).map Prod.snd))).sum := by
      apply congrArg
      apply List.map_congr_left
      intro p _
      ring
    rw [hxy, mul_comm]

theorem corrEntry_self (xs : List (Option ℚ)) :
    (((subVals xs).map fun y => (y - listMean (subVals xs)) ^ 2).sum ≠ 0 →
      corrEntry xs xs = some 1) ∧
    (((subVals xs).map fun y => (y - listMean (subVals xs)) ^ 2).sum = 0 →
      corrEntry xs xs = none) := by
  unfold corrEntry
  rw [bothVals_self xs]
  simp only [List.map_map]
  have h1 : (Prod.fst ∘ (fun a : ℚ => (a, a))) = id := by funext a; rfl
  have h2 : (Prod.snd ∘ (fun a : ℚ => (a, a))) = id := by funext a; rfl
  have h3 : ∀ c : ℚ, ((fun p => (p.1 - c) ^ 2) ∘ (fun a : ℚ => (a, a)))
      = fun a => (a - c) ^ 2 := by intro c; funext a; rfl
  have h4 : ∀ c : ℚ, ((fun p => (p.2 - c) ^ 2) ∘ (fun a : ℚ => (a, a)))
      = fun a => (a - c) ^ 2 := by intro c; funext a; rfl
  have h5 : ∀ c d : ℚ, ((fun p => (p.1 - c) * (p.2 - d)) ∘ (fun a : ℚ => (a, a)))
      = fun a => (a - c) * (a - d) := by intro c d; funext a; rfl
  simp only [h1, h2, h3, h4, h5, List.map_id]
  constructor
  · intro hne
    have hprod : ((subVals xs).map
        fun a => (a - listMean (subVals xs)) * (a - listMean (subVals xs))).sum
        = ((subVals xs).map fun a => (a - listMean (subVals xs)) ^ 2).sum := by
      apply congrArg
      apply List.map_congr_left
      intro a _
      ring
    have hSnn : 0 ≤ ((subVals xs).map fun a => (a - listMean (subVals xs)) ^ 2).sum := by
      apply List.sum_nonneg
      intro y hy
      rcases List.mem_map.mp hy with ⟨z, _, rfl⟩
      positivity
    rw [if_neg (by simp [hne])]
    have hcast : ((((subVals xs).map
        fun a => (a - listMean (subVals xs)) ^ 2).sum : ℚ) : ℝ) ≠ 0 := by
      exact_mod_cast hne
    rw [hprod, Real.sqrt_mul_self (by exact_mod_cast hSnn), div_self hcast]
  · intro h0
    rw [if_pos (by simp [h0])]

/-- C9: the correlation result is labelled by exactly the numeric columns of
the working table in table order, the matrix is square with one row per
label, it is symmetric — the `(i,j)` and `(j,i)` entries agree — the
diagonal entry of a column with nonzero variance on its non-missing subset
is 1, and a column with zero variance (in particular an all-missing column)
yields a missing diagonal entry instead of failing the computation. -/
theorem c9_correlation (st : MState) (i j : Nat)
    (hi : i < (numericNames st.data).length)
    (hj : j < (numericNames st.data).length) :
    (correlation st).1 = numericNames st.data ∧
    (correlation st).2.length = (numericNames st.data).length ∧
    (∀ row ∈ (correlation st).2, row.length = (numericNames st.data).length) ∧
    (((correlation st).2.getD i []).getD j none
      = ((correlation st).2.getD j []).getD i none) ∧
    (((subVals (colQ st.data ((numericNames st.data).getD i ""))).map
        fun y => (y - listMean (subVals (colQ st.data
          ((numericNames st.data).getD i "")))) ^ 2).sum ≠ 0 →
      ((correlation st).2.getD i []).getD i none = some 1) ∧
    (((subVals (colQ st.data ((numericNames st.data).getD i ""))).map
        fun y => (y - listMean (subVals (colQ st.data
          ((numericNames st.data).getD i "")))) ^ 2).sum = 0 →
      ((correlation st).2.getD i []).getD i none = none) := by
  have hentry : ∀ a b : Nat, a < (numericNames st.data).length →
      b < (numericNames st.data).length →
      ((correlation st).2.getD a []).getD b none
        = corrEntry (colQ st.data ((numericNames st.data).getD a ""))
            (colQ st.data ((numericNames st.data).getD b "")) := by
    intro a b ha hb
    show ((((numericNames st.data).map fun x => (numericNames st.data).map
        fun y => corrEntry (colQ st.data x) (colQ st.data y)).getD a []).getD b none) = _
    rw [getD_map_lt _ _ a ha "" [], getD_map_lt _ _ b hb "" none]
  refine ⟨rfl, ?_, ?_, ?_, ?_, ?_⟩
  · show ((numericNames st.data).map _).length = _
    rw [List.length_map]
  · intro row hrow
    rcases List.mem_map.mp hrow with ⟨a, _, rfl⟩
    exact List.length_map _ _
  · rw [hentry i j hi hj, hentry j i hj hi, corrEntry_symm]
  · rw [hentry i i hi hi]
    exact (corrEntry_self _).1
  · rw [hentry i i hi hi]
    exact (corrEntry_self _).2

/-- C9 witness: the theorem applied to `st9` at the entry pair `(0, 1)` and
at the nonzero-variance diagonal entry `(0, 0)`. -/
theorem c9_correlation_witness :
    (0 < (numericNames st9.data).length ∧ 1 < (numericNames st9.data).length) ∧
    ((correlation st9).2.getD 0 []).getD 1 none
      = ((correlation st9).2.getD 1 []).getD 0 none ∧
    ((correlation st9).2.getD 0 []).getD 0 none = some 1 := by
  have hi : 0 < (numericNames st9.data).length := by decide
  have hj : 1 < (numericNames st9.data).length := by decide
  have hth := c9_correlation st9 0 1 hi hj
  have hvar : ((subVals (colQ st9.data ((numericNames st9.data).getD 0 ""))).map
      fun y => (y - listMean (subVals (colQ st9.data
        ((numericNames st9.data).getD 0 "")))) ^ 2).sum ≠ 0 := by
    norm_num [numericNames, st9, t9, isNumericCol, colQ, subVals, listMean,
      Table.getCol, List.find?, coerceNum, List.filterMap_cons, List.filterMap_nil]
  exact ⟨⟨hi, hj⟩, hth.2.2.2.1, hth.2.2.2.2.1 hvar⟩

/-! Claim C10: the `runCusum` request mixes sorted dates with unsorted
CUSUM traces. -/

theorem sortLe_of_chain {α : Type} (le : α → α → Bool) :
    ∀ l : List α, l.Chain' (fun a b => le a b = true) → sortLe le l = l := by
  intro l
  induction l with
  | nil => intro _; rfl
  | cons a l ih =>
    intro h
    have htail : l.Chain' (fun a b => le a b = true) := h.tail
    unfold sortLe
    rw [ih htail]
    cases l with
    | nil => rfl
    | cons b m =>
      have hab : le a b = true := (List.chain'_cons.mp h).1
      unfold insertLe
      rw [if_pos hab]

theorem dateLt_to_le (a b : Option Date) (h : dateLt a b = true) : dateLe a b = true := by
  cases a with
  | none => simp [dateLt] at h
  | some x =>
    cases b with
    | none => simp [dateLt] at h
    | some y =>
      simp only [dateLt, decide_eq_true_eq] at h
      simp only [dateLe, keyLe, Option.map_some', decide_eq_true_eq]
      exact le_of_lt h

/-- C10: a successful `run_cusum` hands back the date sequence of a
date-sorted copy of the cleaned working table while every CUSUM trace is
computed over that table's unsorted selection row order; when the selected
rows are already in strictly ascending date order the sorted date sequence
coincides with the table's own date column, so the i-th CUSUM value
corresponds to the i-th returned date. -/
theorem c10_run_cusum (st : MState) (dateCol start stop : String)
    (cols : List String) (out : CusumOut) (stf : MState)
    (hrun : run_cusum st dateCol start stop cols = .ok (out, stf)) :
    out.dates = sortDates (datesOf stf.data dateCol) ∧
    out.traces = cols.map (fun c => (c, cusum stf c)) ∧
    ((datesOf stf.data dateCol).Chain' (fun a b => dateLt a b = true) →
      out.dates = datesOf stf.data dateCol) := by
  unfold run_cusum at hrun
  simp only [] at hrun
  cases hsel : select_data { st with date_column := dateCol } start stop cols with
  | error e => rw [hsel] at hrun; simp at hrun
  | ok st2 =>
    rw [hsel] at hrun
    simp only [Except.ok.injEq, Prod.mk.injEq] at hrun
    obtain ⟨hout, hstf⟩ := hrun
    subst hstf
    subst hout
    refine ⟨rfl, rfl, ?_⟩
    intro hchain
    show sortDates (datesOf _ dateCol) = _
    unfold sortDates
    exact sortLe_of_chain dateLe _ (hchain.imp fun a b hab => dateLt_to_le a b hab)

/-- C10 witness: the theorem applied to a concrete run over `st1`, whose
selected rows are already date-sorted. -/
theorem c10_run_cusum_witness :
    ∃ out stf, run_cusum st1 ("Date") ("2023-01-01") ("2023-01-03") [("A")]
        = .ok (out, stf) ∧
      (datesOf stf.data ("Date")).Chain' (fun a b => dateLt a b = true) ∧
      out.dates = datesOf stf.data ("Date") := by
  have hch : List.Chain' (fun a b => dateLt a b = true)
      [some (⟨2023, 1, 1⟩ : Date), some ⟨2023, 1, 2⟩, some ⟨2023, 1, 3⟩] := by
    refine List.chain'_cons.mpr ⟨by decide, List.chain'_cons.mpr ⟨by decide, ?_⟩⟩
    exact List.chain'_singleton _
  refine ⟨_, _, rfl, hch, ?_⟩
  exact (c10_run_cusum st1 ("Date") ("2023-01-01") ("2023-01-03") [("A")] _ _ rfl).2.2 hch

end Mettool
